import Mathlib

/-!
Verification of the filter-aggregate-reshape pipeline of the EEG SHAP-values
dashboard (streamlit_app).  The data model and operations below are a shallow
embedding of the pandas pipeline in `streamlit_app/main.py`,
`streamlit_app/pages/shap_values_heatmap.py`,
`streamlit_app/pages/feature_comparison.py` and
`streamlit_app/pages/model_perf_heatmap.py`.

Modelling choices:
* a DataFrame of observations is a `List Record` (rows in file order);
* category values are `String`s, the numeric value column is `ℚ`
  (exact arithmetic stands in for the floats of the source);
* boolean-mask filtering `df[mask]` is `List.filter` (pandas boolean-mask
  indexing preserves row order and returns a copy of the selected rows);
* `Series.isin(sel)` is `List.contains`;
* `Series.unique()` is first-occurrence deduplication (`unique` below).
-/

/-- One row of the SHAP-value tables: the five categorical dimensions and the
numeric `SHAP_value` column. -/
structure Record where
  cluster : String
  timePeriod : String
  frequency : String
  stimulus : String
  targetScore : String
  shapValue : ℚ
deriving DecidableEq

/-- The five multiselect widgets: one list of permitted values per dimension
(`selected_clusters`, `selected_time_periods`, `selected_frequencies`,
`selected_stimuli`, `selected_scores`). -/
structure Selection where
  clusters : List String
  timePeriods : List String
  frequencies : List String
  stimuli : List String
  targetScores : List String
deriving DecidableEq

/-- The conjunction of the five `isin` masks of `main.py` lines 47-53. -/
def matchesSelection (s : Selection) (r : Record) : Bool :=
  s.clusters.contains r.cluster &&
  s.timePeriods.contains r.timePeriod &&
  s.frequencies.contains r.frequency &&
  s.stimuli.contains r.stimulus &&
  s.targetScores.contains r.targetScore

/-- `filtered_df = df[mask1 & ... & mask5]` of `main.py` lines 47-53 (the same
code appears in `shap_values_heatmap.py` lines 74-80 and
`feature_comparison.py`). -/
def filtered_df (df : List Record) (s : Selection) : List Record :=
  df.filter (matchesSelection s)

/-- `Series.unique()`: the distinct values of a column in first-occurrence
order, with `seen` accumulating the values already emitted. -/
def uniqueAux (seen : List String) : List String → List String
  | [] => []
  | x :: xs => if seen.contains x then uniqueAux seen xs else x :: uniqueAux (x :: seen) xs

/-- `Series.unique()` on a whole column. -/
def unique (l : List String) : List String := uniqueAux [] l

/-- The default selection of every sidebar widget: the full observed domain of
each dimension (`default=df[...].unique()`). -/
def observedSelection (df : List Record) : Selection :=
  { clusters := unique (df.map Record.cluster)
  , timePeriods := unique (df.map Record.timePeriod)
  , frequencies := unique (df.map Record.frequency)
  , stimuli := unique (df.map Record.stimulus)
  , targetScores := unique (df.map Record.targetScore) }

/-- Dimension-wise intersection of two selections. -/
def interSelection (s1 s2 : Selection) : Selection :=
  { clusters := List.inter s1.clusters s2.clusters
  , timePeriods := List.inter s1.timePeriods s2.timePeriods
  , frequencies := List.inter s1.frequencies s2.frequencies
  , stimuli := List.inter s1.stimuli s2.stimuli
  , targetScores := List.inter s1.targetScores s2.targetScores }

/-- The two aggregation methods selected by the data-source radio widget
(`aggregation_method = "mean" | "sum"`). -/
inductive AggMethod where
  | sum
  | mean
deriving DecidableEq

/-- The records of one `groupby` group: those whose key column equals `k`. -/
def groupRecords (df : List Record) (key : Record → String) (k : String) : List Record :=
  df.filter (fun r => key r == k)

/-- The summed value column of one group. -/
def groupSum (df : List Record) (key : Record → String) (k : String) : ℚ :=
  ((groupRecords df key k).map Record.shapValue).sum

/-- The number of records contributing to one group. -/
def groupCount (df : List Record) (key : Record → String) (k : String) : ℕ :=
  (groupRecords df key k).length

/-- The reduced value of one group: `sum` adds the contributing values,
`mean` divides that sum by the contributing record count. -/
def aggValue (m : AggMethod) (df : List Record) (key : Record → String) (k : String) : ℚ :=
  match m with
  | .sum => groupSum df key k
  | .mean => groupSum df key k / (groupCount df key k : ℚ)

/-- `df.groupby([key]).agg({"SHAP_value": method})` of `main.py` line 69 and
`feature_comparison.py` lines 48-51: one output row per distinct key value
observed in the table.  (pandas emits group keys in sorted order; the claims
checked here are insensitive to key order, and first-occurrence order is used
for the keys.) -/
def aggregate (df : List Record) (key : Record → String) (m : AggMethod) : List (String × ℚ) :=
  (unique (df.map key)).map (fun k => (k, aggValue m df key k))

/-- The example table of spec §8: records (A,10), (A,20), (B,5). -/
def exampleTable : List Record :=
  [ { cluster := "A", timePeriod := "t", frequency := "f", stimulus := "s",
      targetScore := "g", shapValue := 10 }
  , { cluster := "A", timePeriod := "t", frequency := "f", stimulus := "s",
      targetScore := "g", shapValue := 20 }
  , { cluster := "B", timePeriod := "t", frequency := "f", stimulus := "s",
      targetScore := "g", shapValue := 5 } ]

/-- `FREQUENCY_ORDER` of `shap_values_heatmap.py` line 11. -/
def FREQUENCY_ORDER : List String := ["delta", "theta", "alpha", "beta", "lower gamma"]

/-- `TIME_PERIOD_ORDER` of `shap_values_heatmap.py` line 12. -/
def TIME_PERIOD_ORDER : List String := ["pre-stimulus", "early", "late"]

/-- `CLUSTER_ORDER` of `shap_values_heatmap.py` line 13. -/
def CLUSTER_ORDER : List String := ["CL1", "CL4", "CL2", "CL5", "CL3", "CL6"]

/-- `pd.Categorical(col, categories=ORDER)` maps a value outside the category
list to NaN; a record with a NaN group key is then excluded by `pivot_table`.
This predicate holds for the records that survive the three categorical
reassignments of `shap_values_heatmap.py` lines 90-104. -/
def inCanonicalOrders (r : Record) : Bool :=
  TIME_PERIOD_ORDER.contains r.timePeriod &&
  FREQUENCY_ORDER.contains r.frequency &&
  CLUSTER_ORDER.contains r.cluster

/-- The filtered table after the categorical reassignment: records whose
Time Period, Frequency or Cluster is outside the canonical orders drop out of
the subsequent grouping. -/
def categoricalFiltered (df : List Record) : List Record :=
  df.filter inCanonicalOrders

/-- The canonical row keys of the pivot: the (Time Period, Frequency) pairs in
canonical nested order, as produced by grouping on the two ordered
categoricals and `sort_index()`. -/
def canonicalRowKeys : List (String × String) :=
  TIME_PERIOD_ORDER.flatMap (fun t => FREQUENCY_ORDER.map (fun f => (t, f)))

/-- The records of one pivot cell: Time Period, Frequency and Cluster all
equal to the key of the cell. -/
def pivotGroup (df : List Record) (t f c : String) : List Record :=
  df.filter (fun r => r.timePeriod == t && r.frequency == f && r.cluster == c)

/-- The reduced numeric value of a nonempty pivot cell (`aggfunc`). -/
def reducedValue (m : AggMethod) (g : List Record) : ℚ :=
  match m with
  | .sum => (g.map Record.shapValue).sum
  | .mean => (g.map Record.shapValue).sum / (g.length : ℚ)

/-- The full canonical (Time Period, Frequency, Cluster) key product, in
canonical nested order: the index that `groupby` on the three fixed
categoricals produces with its default `observed=False` (all category
combinations) and default sorting by category order. -/
def canonicalTriples : List (String × String × String) :=
  TIME_PERIOD_ORDER.flatMap (fun t =>
    FREQUENCY_ORDER.flatMap (fun f => CLUSTER_ORDER.map (fun c => (t, f, c))))

/-- The aggregated value of one grouped key combination, NaN modelled as
`none`: `sum` aggregates an empty group to 0 (groupby sum has `min_count=0`),
while `mean` aggregates an empty group to NaN. -/
def aggregatedAt (m : AggMethod) (df : List Record) (t f c : String) : Option ℚ :=
  match m with
  | .sum => some (reducedValue .sum (pivotGroup df t f c))
  | .mean =>
    match pivotGroup df t f c with
    | [] => none
    | g => some (reducedValue .mean g)

/-- The grouped rows surviving `pivot_table`'s default `dropna=True`, which
drops all-NaN aggregated rows before unstacking: every key combination for
`sum` (whose empty groups hold 0, not NaN), only the observed combinations
for `mean`. -/
def survivingTriples (m : AggMethod) (df : List Record) : List (String × String × String) :=
  canonicalTriples.filter (fun k => (aggregatedAt m df k.1 k.2.1 k.2.2).isSome)

/-- First-occurrence deduplication of (Time Period, Frequency) pairs, with
`seen` accumulating the pairs already emitted. -/
def uniquePairs (seen : List (String × String)) :
    List (String × String) → List (String × String)
  | [] => []
  | x :: xs => if seen.contains x then uniquePairs seen xs else x :: uniquePairs (x :: seen) xs

/-- The row labels after unstacking the Cluster level: the distinct
(Time Period, Frequency) pairs of the surviving grouped rows, in canonical
order (the grouped index is category-sorted and `sort_index()` keeps it so). -/
def pivotRowLabels (m : AggMethod) (df : List Record) : List (String × String) :=
  uniquePairs [] ((survivingTriples m df).map (fun k => (k.1, k.2.1)))

/-- The column labels: unstacking a categorical level yields all its
categories, and the final `dropna(how="all", axis=1)` of `pivot_table` runs
after `fill_value` is applied, so columns survive whenever at least one row
does; on a rowless frame every column is vacuously all-NaN and is dropped. -/
def pivotColLabels (m : AggMethod) (df : List Record) : List String :=
  if (pivotRowLabels m df).isEmpty then [] else CLUSTER_ORDER

/-- One cell of the unstacked matrix: the aggregated value of its key
combination when that combination survived, else NaN replaced by
`fill_value`. -/
def pivotCellValue (m : AggMethod) (fill : ℚ) (df : List Record) (t f c : String) : ℚ :=
  match aggregatedAt m df t f c with
  | some v => v
  | none => fill

/-- A pivoted matrix: row labels, column labels and the row-major cells. -/
structure PivotResult where
  rowLabels : List (String × String)
  colLabels : List String
  cells : List (List ℚ)
deriving DecidableEq

/-- `pivot_df = filtered_df.pivot_table(index=["Time Period", "Frequency"],
columns="Cluster", values="SHAP_value", aggfunc=aggregation_method,
fill_value=0).sort_index()` of `shap_values_heatmap.py` lines 107-113, after
the categorical reassignment of lines 90-104.  Staged as `pivot_table` does
it with its default `dropna=True`: group on the three fixed categoricals with
the full category product, aggregate, drop all-NaN grouped rows, unstack the
Cluster level (all 6 categories), fill missing cells with `fill_value`, and
drop columns that are still all-NaN (possible only when no row survived). -/
def pivot_df (df : List Record) (m : AggMethod) (fill : ℚ) : PivotResult :=
  { rowLabels := pivotRowLabels m (categoricalFiltered df)
  , colLabels := pivotColLabels m (categoricalFiltered df)
  , cells := (pivotRowLabels m (categoricalFiltered df)).map (fun tf =>
      (pivotColLabels m (categoricalFiltered df)).map (fun c =>
        pivotCellValue m fill (categoricalFiltered df) tf.1 tf.2 c)) }

/-- Cell lookup in a pivoted matrix (row-major, 0-based). -/
def PivotResult.cellAt (p : PivotResult) (i j : ℕ) : ℚ :=
  (p.cells.getD i []).getD j 0

/-- The number of columns of a row-major numeric matrix. -/
def numCols (mat : List (List ℚ)) : ℕ := (mat.headD []).length

/-- Modelled from the spec: a cluster of original row indices during
agglomerative clustering, carrying its dendrogram leaf order, its centroid
and its size.  The hierarchical-reordering engine (spec §4.3) is code of this
repository that is not under `src/`; it is modelled here from the spec. -/
structure WardCluster where
  leaves : List ℕ
  centroid : List ℚ
  size : ℕ

/-- Modelled from the spec: squared Euclidean distance between two row
vectors. -/
def sqDist (u v : List ℚ) : ℚ :=
  (List.zipWith (fun x y => (x - y) * (x - y)) u v).sum

/-- Modelled from the spec: the Ward minimum-variance merge cost between two
clusters. -/
def wardDist (a b : WardCluster) : ℚ :=
  ((a.size : ℚ) * (b.size : ℚ) / ((a.size : ℚ) + (b.size : ℚ))) *
    sqDist a.centroid b.centroid

/-- Modelled from the spec: merging two clusters joins their leaf orders
left-to-right and takes the size-weighted centroid. -/
def mergeClusters (a b : WardCluster) : WardCluster :=
  { leaves := a.leaves ++ b.leaves
  , centroid := List.zipWith
      (fun u v => ((a.size : ℚ) * u + (b.size : ℚ) * v) / ((a.size : ℚ) + (b.size : ℚ)))
      a.centroid b.centroid
  , size := a.size + b.size }

/-- All ways to pick one element out of a list, each with the remaining
elements. -/
def pickOne {α : Type} : List α → List (α × List α)
  | [] => []
  | x :: xs => (x, xs) :: (pickOne xs).map (fun p => (p.1, x :: p.2))

/-- All ways to pick an ordered pair of two distinct positions out of a list,
each with the remaining elements. -/
def pickTwo {α : Type} (l : List α) : List (α × α × List α) :=
  ((pickOne l).map (fun p => (pickOne p.2).map (fun q => (p.1, q.1, q.2)))).flatten

/-- The element of a list minimising a rational cost, scanning left to
right. -/
def argminBy {α : Type} (f : α → ℚ) : List α → Option α
  | [] => none
  | x :: xs =>
    match argminBy f xs with
    | none => some x
    | some y => if f x ≤ f y then some x else some y

/-- Modelled from the spec: one agglomerative step — merge the pair of
clusters with minimal Ward cost; a list with fewer than two clusters is
returned unchanged. -/
def wardStep (cs : List WardCluster) : List WardCluster :=
  match argminBy (fun p => wardDist p.1 p.2.1) (pickTwo cs) with
  | none => cs
  | some p => mergeClusters p.1 p.2.1 :: p.2.2

/-- Modelled from the spec: iterate `wardStep` until a single cluster
remains (the fuel argument bounds the number of merges). -/
def wardLoop : ℕ → List WardCluster → List WardCluster
  | 0, cs => cs
  | n + 1, cs => if cs.length ≤ 1 then cs else wardLoop n (wardStep cs)

/-- The concatenated dendrogram leaf order of a cluster list. -/
def leavesOf (cs : List WardCluster) : List ℕ :=
  (cs.map WardCluster.leaves).flatten

/-- Modelled from the spec: one singleton cluster per matrix row. -/
def initClusters (mat : List (List ℚ)) : List WardCluster :=
  (List.range mat.length).map (fun i => { leaves := [i], centroid := mat.getD i [], size := 1 })

/-- Modelled from the spec: the dendrogram leaf order of Ward agglomerative
clustering over the rows of a matrix. -/
def leafOrder (mat : List (List ℚ)) : List ℕ :=
  leavesOf (wardLoop mat.length (initClusters mat))

/-- Modelled from the spec: the row permutation of the hierarchical
reordering engine — dendrogram leaf order, degrading to the identity
permutation (no clustering invoked) when the matrix has fewer than 2 rows. -/
def reorderRowPerm (mat : List (List ℚ)) : List ℕ :=
  if mat.length < 2 then List.range mat.length else leafOrder mat

/-- Column `j` of a row-major matrix as a vector over rows. -/
def colVector (mat : List (List ℚ)) (j : ℕ) : List ℚ :=
  mat.map (fun row => row.getD j 0)

/-- The transpose of a row-major rectangular matrix. -/
def transposed (mat : List (List ℚ)) : List (List ℚ) :=
  (List.range (numCols mat)).map (colVector mat)

/-- Modelled from the spec: the column permutation of the hierarchical
reordering engine — leaf order over the transpose, degrading to the identity
permutation when the matrix has fewer than 2 columns. -/
def reorderColPerm (mat : List (List ℚ)) : List ℕ :=
  if (transposed mat).length < 2 then List.range (transposed mat).length
  else leafOrder (transposed mat)

/-- The in-memory state of one run of the heatmap page: the loaded source
table (owned by the cached data loader) and the derived objects.  pandas
boolean-mask indexing returns a copy, so the later categorical reassignment
writes to the derived table only. -/
structure PageState where
  df : List Record
  filtered : List Record
  pivot : Option PivotResult

/-- `df = load_data(file_path)`: a fresh page state around the loaded table. -/
def loadState (df : List Record) : PageState :=
  { df := df, filtered := [], pivot := none }

/-- `filtered_df = df[...]` (lines 74-80): derives the filtered copy. -/
def stepFilter (s : Selection) (st : PageState) : PageState :=
  { st with filtered := filtered_df st.df s }

/-- `filtered_df[col] = pd.Categorical(...)` (lines 90-104): writes the three
categorical columns of the derived copy; records outside the canonical orders
become NaN-keyed and drop out of the later grouping.  The source table is not
touched (boolean-mask indexing returned a copy). -/
def stepCategorical (st : PageState) : PageState :=
  { st with filtered := categoricalFiltered st.filtered }

/-- `pivot_df = filtered_df.pivot_table(...)` (lines 107-113). -/
def stepPivot (m : AggMethod) (fill : ℚ) (st : PageState) : PageState :=
  { st with pivot := some (pivot_df st.filtered m fill) }

/-- The full filter-categorical-pivot pipeline of the heatmap page, as a
state transformation starting from the loaded table. -/
def runHeatmapPage (df : List Record) (s : Selection) (m : AggMethod) (fill : ℚ) : PageState :=
  stepPivot m fill (stepCategorical (stepFilter s (loadState df)))

/-- The model-performance table of `model_perf_heatmap.py`: column labels,
row labels (the index) and the numeric rows, as loaded by
`pd.read_csv(..., skiprows=1)` (the index is then a default range, one entry
per row). -/
structure PerfTable where
  columns : List String
  index : List String
  rows : List (List ℚ)

/-- `df.index = df.columns` of `model_perf_heatmap.py` line 20: pandas
raises a length-mismatch ValueError unless the new index has exactly one
label per row, so the assignment is modelled as fallible. -/
def setIndexToColumns (t : PerfTable) : Option PerfTable :=
  if t.rows.length = t.columns.length then
    some { t with index := t.columns }
  else
    none

/-- A record whose Cluster value CL9 is outside the canonical cluster
order. -/
def outOfOrderRecord : Record :=
  { cluster := "CL9", timePeriod := "early", frequency := "delta"
  , stimulus := "s", targetScore := "g", shapValue := 1 }

/-- A record whose three pivot keys are all inside the canonical orders:
the (early, delta, CL1) cell is its only observed key combination. -/
def singleObservedRecord : Record :=
  { cluster := "CL1", timePeriod := "early", frequency := "delta"
  , stimulus := "s", targetScore := "g", shapValue := 1 }

theorem mem_uniqueAux (l : List String) :
    ∀ (seen : List String) (a : String), a ∈ uniqueAux seen l ↔ a ∈ l ∧ a ∉ seen := by
  induction l with
  | nil => intro seen a; simp [uniqueAux]
  | cons x xs ih =>
    intro seen a
    simp only [uniqueAux]
    by_cases hx : x ∈ seen
    · rw [if_pos (by simpa using hx), ih]
      simp only [List.mem_cons]
      constructor
      · rintro ⟨h1, h2⟩
        exact ⟨Or.inr h1, h2⟩
      · rintro ⟨h1 | h1, h2⟩
        · exact absurd (by rw [h1]; exact hx) h2
        · exact ⟨h1, h2⟩
    · rw [if_neg (by simpa using hx)]
      simp only [List.mem_cons, ih, List.mem_cons]
      constructor
      · rintro (rfl | ⟨h1, h2⟩)
        · exact ⟨Or.inl rfl, hx⟩
        · exact ⟨Or.inr h1, fun hs => h2 (Or.inr hs)⟩
      · rintro ⟨h1, h2⟩
        by_cases hax : a = x
        · exact Or.inl hax
        · exact Or.inr ⟨h1.resolve_left hax,
            fun hm => by rcases hm with rfl | hs; exacts [hax rfl, h2 hs]⟩

theorem mem_unique (l : List String) (a : String) : a ∈ unique l ↔ a ∈ l := by
  simp [unique, mem_uniqueAux]

theorem contains_eq_mem (l : List String) (a : String) :
    l.contains a = decide (a ∈ l) := by
  simp [List.contains]

theorem contains_inter (l1 l2 : List String) (a : String) :
    (List.inter l1 l2).contains a = (l1.contains a && l2.contains a) := by
  by_cases h1 : a ∈ l1 <;> by_cases h2 : a ∈ l2 <;>
    simp [contains_eq_mem, List.inter, List.mem_filter, h1, h2]

/-- C1: the filter retains exactly the records whose value in each of the five
dimensions belongs to the selection of that dimension (logical AND); values in a
selection that occur in no record simply match nothing — the characterisation
below holds for arbitrary selections, with no freshness assumption. -/
theorem filter_retains_exactly (df : List Record) (s : Selection) (r : Record) :
    r ∈ filtered_df df s ↔
      r ∈ df ∧ r.cluster ∈ s.clusters ∧ r.timePeriod ∈ s.timePeriods ∧
        r.frequency ∈ s.frequencies ∧ r.stimulus ∈ s.stimuli ∧
        r.targetScore ∈ s.targetScores := by
  simp [filtered_df, List.mem_filter, matchesSelection, and_assoc]

/-- C6: filtering with the full observed domain of every dimension (the
default state of all five sidebar widgets) returns the original table
unchanged, in both content and record order. -/
theorem filter_full_domain_id (df : List Record) :
    filtered_df df (observedSelection df) = df := by
  apply List.filter_eq_self.mpr
  intro r hr
  simp only [matchesSelection, observedSelection, Bool.and_eq_true, contains_eq_mem,
    decide_eq_true_eq, mem_unique]
  refine ⟨⟨⟨⟨?_, ?_⟩, ?_⟩, ?_⟩, ?_⟩ <;> exact List.mem_map_of_mem _ hr

/-- C7: filtering twice composes to a single filter with the dimension-wise
intersection of the two selections. -/
theorem filter_composition (df : List Record) (s1 s2 : Selection) :
    filtered_df (filtered_df df s1) s2 = filtered_df df (interSelection s1 s2) := by
  have bool10 : ∀ (a1 a2 b1 b2 c1 c2 d1 d2 e1 e2 : Bool),
      ((a2 && b2 && c2 && d2 && e2) && (a1 && b1 && c1 && d1 && e1)) =
        ((a1 && a2) && (b1 && b2) && (c1 && c2) && (d1 && d2) && (e1 && e2)) := by
    decide
  simp only [filtered_df, List.filter_filter]
  apply List.filter_congr
  intro r _
  simp only [matchesSelection, interSelection, contains_inter]
  rw [bool10]

theorem groupCount_pos_of_mem (df : List Record) (key : Record → String) (k : String)
    (hk : k ∈ df.map key) : 0 < groupCount df key k := by
  obtain ⟨r, hr, rfl⟩ := List.mem_map.mp hk
  have : r ∈ groupRecords df key (key r) := by
    simp [groupRecords, List.mem_filter, hr]
  calc 0 < 1 := Nat.zero_lt_one
    _ ≤ (groupRecords df key (key r)).length := List.length_pos_of_mem this

/-- C5: aggregation with `sum` maps each key of the output to the sum of the values of its
records, aggregation with `mean` maps each key to that sum divided by
the contributing record count; every key that appears in the output has at
least one matching record (keys with zero matching records never appear); on
the records (A,10), (A,20), (B,5) grouped by Cluster, `sum` yields A↦30, B↦5
and `mean` yields A↦15, B↦5. -/
theorem aggregate_correct (df : List Record) (key : Record → String) :
    (∀ p ∈ aggregate df key .sum,
        p.2 = groupSum df key p.1 ∧ 0 < groupCount df key p.1)
  ∧ (∀ p ∈ aggregate df key .mean,
        p.2 = groupSum df key p.1 / (groupCount df key p.1 : ℚ)
          ∧ 0 < groupCount df key p.1)
  ∧ aggregate exampleTable Record.cluster .sum = [("A", 30), ("B", 5)]
  ∧ aggregate exampleTable Record.cluster .mean = [("A", 15), ("B", 5)] := by
  have hsum : aggregate exampleTable Record.cluster .sum = [("A", 30), ("B", 5)] := by
    norm_num +decide [aggregate, exampleTable, unique, uniqueAux, aggValue, groupSum,
      groupCount, groupRecords, List.filter_cons]
  have hmean : aggregate exampleTable Record.cluster .mean = [("A", 15), ("B", 5)] := by
    norm_num +decide [aggregate, exampleTable, unique, uniqueAux, aggValue, groupSum,
      groupCount, groupRecords, List.filter_cons]
  refine ⟨?_, ?_, hsum, hmean⟩
  all_goals
    intro p hp
    obtain ⟨k, hk, rfl⟩ := List.mem_map.mp hp
    have hmem : k ∈ df.map key := (mem_unique _ _).mp hk
    exact ⟨rfl, groupCount_pos_of_mem df key k hmem⟩

/-- Witness for C5 at the concrete input: the pair (A, 30) is in the summed
aggregation of the example table, and the theorem yields its characterisation. -/
theorem aggregate_correct_witness :
    (("A", (30 : ℚ)) ∈ aggregate exampleTable Record.cluster .sum)
      ∧ ((30 : ℚ) = groupSum exampleTable Record.cluster "A"
          ∧ 0 < groupCount exampleTable Record.cluster "A") := by
  have hmem : ("A", (30 : ℚ)) ∈ aggregate exampleTable Record.cluster .sum := by
    rw [(aggregate_correct exampleTable Record.cluster).2.2.1]
    exact List.mem_cons_self _ _
  exact ⟨hmem, (aggregate_correct exampleTable Record.cluster).1 ("A", 30) hmem⟩

theorem mem_uniquePairs (l : List (String × String)) :
    ∀ (seen : List (String × String)) (a : String × String),
      a ∈ uniquePairs seen l ↔ a ∈ l ∧ a ∉ seen := by
  induction l with
  | nil => intro seen a; simp [uniquePairs]
  | cons x xs ih =>
    intro seen a
    simp only [uniquePairs]
    by_cases hx : x ∈ seen
    · rw [if_pos (by simpa using hx), ih]
      simp only [List.mem_cons]
      constructor
      · rintro ⟨h1, h2⟩
        exact ⟨Or.inr h1, h2⟩
      · rintro ⟨h1 | h1, h2⟩
        · exact absurd (by rw [h1]; exact hx) h2
        · exact ⟨h1, h2⟩
    · rw [if_neg (by simpa using hx)]
      simp only [List.mem_cons, ih, List.mem_cons]
      constructor
      · rintro (rfl | ⟨h1, h2⟩)
        · exact ⟨Or.inl rfl, hx⟩
        · exact ⟨Or.inr h1, fun hs => h2 (Or.inr hs)⟩
      · rintro ⟨h1, h2⟩
        by_cases hax : a = x
        · exact Or.inl hax
        · exact Or.inr ⟨h1.resolve_left hax,
            fun hm => by rcases hm with rfl | hs; exacts [hax rfl, h2 hs]⟩

theorem mem_canonicalRowKeys (p : String × String) :
    p ∈ canonicalRowKeys ↔ p.1 ∈ TIME_PERIOD_ORDER ∧ p.2 ∈ FREQUENCY_ORDER := by
  obtain ⟨t, f⟩ := p
  simp only [canonicalRowKeys, List.mem_flatMap, List.mem_map, Prod.mk.injEq]
  constructor
  · rintro ⟨a, ha, b, hb, rfl, rfl⟩
    exact ⟨ha, hb⟩
  · rintro ⟨ht, hf⟩
    exact ⟨t, ht, f, hf, rfl, rfl⟩

theorem mem_canonicalTriples (k : String × String × String) :
    k ∈ canonicalTriples ↔
      k.1 ∈ TIME_PERIOD_ORDER ∧ k.2.1 ∈ FREQUENCY_ORDER ∧ k.2.2 ∈ CLUSTER_ORDER := by
  obtain ⟨t, f, c⟩ := k
  simp only [canonicalTriples, List.mem_flatMap, List.mem_map, Prod.mk.injEq]
  constructor
  · rintro ⟨a, ha, b, hb, d, hd, rfl, rfl, rfl⟩
    exact ⟨ha, hb, hd⟩
  · rintro ⟨ht, hf, hc⟩
    exact ⟨t, ht, f, hf, c, hc, rfl, rfl, rfl⟩

theorem aggregatedAt_mean_isSome (df : List Record) (t f c : String) :
    (aggregatedAt .mean df t f c).isSome = true ↔ pivotGroup df t f c ≠ [] := by
  unfold aggregatedAt
  cases h : pivotGroup df t f c with
  | nil => simp
  | cons a l => simp

theorem pivotRowLabels_sum (df : List Record) :
    pivotRowLabels .sum df = canonicalRowKeys := by
  unfold pivotRowLabels survivingTriples
  have hfil : List.filter
      (fun k => (aggregatedAt AggMethod.sum df k.1 k.2.1 k.2.2).isSome) canonicalTriples
      = canonicalTriples :=
    List.filter_eq_self.mpr (fun k _ => rfl)
  rw [hfil]
  decide

theorem pivotCellValue_eq_or (m : AggMethod) (fill : ℚ) (d : List Record) (t f c : String) :
    pivotCellValue m fill d t f c = reducedValue m (pivotGroup d t f c)
      ∨ pivotCellValue m fill d t f c = fill := by
  cases m with
  | sum => exact Or.inl rfl
  | mean =>
    unfold pivotCellValue aggregatedAt
    cases h : pivotGroup d t f c with
    | nil => exact Or.inr rfl
    | cons a l => exact Or.inl rfl

/-- C2 counterexample: on the mean path (the averaged default data source),
`pivot_table` with its default `dropna=True` drops the all-NaN aggregated
rows, so canonical (Time Period, Frequency) pairs with no data do not appear:
a table with the single observed key (early, delta, CL1) pivots to one row,
not to the full canonical 15-row order the claim states. -/
theorem pivot_fixed_order_counterexample :
    (pivot_df [singleObservedRecord] .mean 0).rowLabels = [("early", "delta")]
    ∧ ¬ ((pivot_df [singleObservedRecord] .mean 0).rowLabels = canonicalRowKeys) := by
  constructor
  · decide
  · decide

/-- C2 (amended): records outside the canonical orders are silently excluded
(prepending one never changes the pivot).  With sum aggregation the row
labels are exactly the canonical (Time Period, Frequency) product and the
column labels exactly the canonical Cluster order, an absent key cell holding
0, the configured fill value.  With mean aggregation the row labels are
exactly the canonical pairs having at least one matching record (all-NaN
rows are dropped), the column labels equal the canonical Cluster order
whenever at least one row survives, and a surviving-row cell with no
matching record holds the fill value. -/
theorem pivot_fixed_order_amended (df : List Record) (fill : ℚ) (r : Record)
    (hr : inCanonicalOrders r = false) :
    (pivot_df df .sum fill).rowLabels = canonicalRowKeys
  ∧ (pivot_df df .sum fill).colLabels = CLUSTER_ORDER
  ∧ (∀ tf : String × String,
      tf ∈ (pivot_df df .mean fill).rowLabels ↔
        (tf ∈ canonicalRowKeys
          ∧ ∃ c ∈ CLUSTER_ORDER, pivotGroup (categoricalFiltered df) tf.1 tf.2 c ≠ []))
  ∧ ((pivot_df df .mean fill).rowLabels ≠ [] →
      (pivot_df df .mean fill).colLabels = CLUSTER_ORDER)
  ∧ (∀ m : AggMethod, pivot_df (r :: df) m fill = pivot_df df m fill)
  ∧ (∀ t f c, pivotGroup (categoricalFiltered df) t f c = [] →
      pivotCellValue .mean fill (categoricalFiltered df) t f c = fill)
  ∧ (∀ t f c, pivotGroup (categoricalFiltered df) t f c = [] →
      pivotCellValue .sum (0 : ℚ) (categoricalFiltered df) t f c = 0) := by
  refine ⟨?_, ?_, ?_, ?_, ?_, ?_, ?_⟩
  · show pivotRowLabels .sum (categoricalFiltered df) = canonicalRowKeys
    exact pivotRowLabels_sum _
  · show pivotColLabels .sum (categoricalFiltered df) = CLUSTER_ORDER
    unfold pivotColLabels
    rw [pivotRowLabels_sum]
    decide
  · intro tf
    show tf ∈ pivotRowLabels .mean (categoricalFiltered df) ↔ _
    unfold pivotRowLabels survivingTriples
    rw [mem_uniquePairs _ _ _]
    simp only [List.mem_map, List.mem_filter, List.not_mem_nil, not_false_eq_true, and_true]
    constructor
    · rintro ⟨k, ⟨hk, hs⟩, rfl⟩
      have h3 := (mem_canonicalTriples k).mp hk
      refine ⟨(mem_canonicalRowKeys _).mpr ⟨h3.1, h3.2.1⟩, k.2.2, h3.2.2, ?_⟩
      exact (aggregatedAt_mean_isSome (categoricalFiltered df) k.1 k.2.1 k.2.2).mp hs
    · rintro ⟨htf, c, hc, hne⟩
      have h2 := (mem_canonicalRowKeys tf).mp htf
      refine ⟨(tf.1, tf.2, c), ⟨(mem_canonicalTriples _).mpr ⟨h2.1, h2.2, hc⟩, ?_⟩, rfl⟩
      exact (aggregatedAt_mean_isSome (categoricalFiltered df) tf.1 tf.2 c).mpr hne
  · intro hne
    show pivotColLabels .mean (categoricalFiltered df) = CLUSTER_ORDER
    unfold pivotColLabels
    rw [if_neg]
    intro hempty
    exact hne (by simpa [List.isEmpty_iff] using hempty)
  · intro m
    have hcdf : categoricalFiltered (r :: df) = categoricalFiltered df := by
      simp [categoricalFiltered, List.filter_cons, hr]
    simp only [pivot_df, hcdf]
  · intro t f c h
    unfold pivotCellValue aggregatedAt
    rw [h]
  · intro t f c h
    unfold pivotCellValue aggregatedAt
    rw [h]
    simp [reducedValue]

/-- Witness for C2 (amended): the out-of-order record CL9 is outside the
canonical cluster order, and prepending it to the empty table leaves the mean
pivot unchanged. -/
theorem pivot_fixed_order_amended_witness :
    (inCanonicalOrders outOfOrderRecord = false)
    ∧ pivot_df [outOfOrderRecord] .mean 0 = pivot_df [] .mean 0 :=
  ⟨by decide,
    (pivot_fixed_order_amended [] 0 outOfOrderRecord (by decide)).2.2.2.2.1 .mean⟩

/-- C3: after pivoting with a fill value, the matrix has exactly one row per
row label and one column per column label, and every cell is either the
reduced numeric value of its key pair or the fill value — never undefined. -/
theorem pivot_cells_invariant (df : List Record) (m : AggMethod) (fill : ℚ) :
    (pivot_df df m fill).cells.length = (pivot_df df m fill).rowLabels.length
  ∧ (∀ row ∈ (pivot_df df m fill).cells,
      row.length = (pivot_df df m fill).colLabels.length)
  ∧ (∀ (i : Fin (pivot_df df m fill).rowLabels.length)
       (j : Fin (pivot_df df m fill).colLabels.length),
      (pivot_df df m fill).cellAt i j
          = reducedValue m (pivotGroup (categoricalFiltered df)
              ((pivot_df df m fill).rowLabels.get i).1
              ((pivot_df df m fill).rowLabels.get i).2
              ((pivot_df df m fill).colLabels.get j))
        ∨ (pivot_df df m fill).cellAt i j = fill) := by
  refine ⟨by simp [pivot_df], ?_, ?_⟩
  · intro row hrow
    simp only [pivot_df, List.mem_map] at hrow
    obtain ⟨tf, htf, rfl⟩ := hrow
    simp [pivot_df]
  · intro i j
    have hi : (i : ℕ) < (pivotRowLabels m (categoricalFiltered df)).length := i.isLt
    have hj : (j : ℕ) < (pivotColLabels m (categoricalFiltered df)).length := j.isLt
    have hcell : (pivot_df df m fill).cellAt i j
        = pivotCellValue m fill (categoricalFiltered df)
            ((pivotRowLabels m (categoricalFiltered df)).get ⟨i, hi⟩).1
            ((pivotRowLabels m (categoricalFiltered df)).get ⟨i, hi⟩).2
            ((pivotColLabels m (categoricalFiltered df)).get ⟨j, hj⟩) := by
      simp only [PivotResult.cellAt, pivot_df, List.get_eq_getElem,
        List.getD_eq_getElem?_getD, List.getElem?_map]
      rw [List.getElem?_eq_getElem hi]
      simp [List.getElem?_eq_getElem hj]
    rw [hcell]
    have hrow2 : (pivot_df df m fill).rowLabels.get i
        = (pivotRowLabels m (categoricalFiltered df)).get ⟨i, hi⟩ := rfl
    have hcol2 : (pivot_df df m fill).colLabels.get j
        = (pivotColLabels m (categoricalFiltered df)).get ⟨j, hj⟩ := rfl
    rw [hrow2, hcol2]
    exact pivotCellValue_eq_or m fill (categoricalFiltered df) _ _ _

/-- Witness for C3: the first row of the sum pivot of the empty table has one
entry per canonical cluster. -/
theorem pivot_cells_invariant_witness :
    ((pivot_df [] .sum 0).cells.get ⟨0, by decide⟩ ∈ (pivot_df [] .sum 0).cells)
    ∧ ((pivot_df [] .sum 0).cells.get ⟨0, by decide⟩).length
        = (pivot_df [] .sum 0).colLabels.length :=
  ⟨List.get_mem _ _ _, (pivot_cells_invariant [] .sum 0).2.1 _ (List.get_mem _ _ _)⟩

theorem pickOne_perm {α : Type} :
    ∀ (l : List α) (p : α × List α), p ∈ pickOne l → (p.1 :: p.2).Perm l := by
  intro l
  induction l with
  | nil => intro p hp; simp [pickOne] at hp
  | cons x xs ih =>
    intro p hp
    simp only [pickOne, List.mem_cons, List.mem_map] at hp
    rcases hp with h | ⟨q, hq, rfl⟩
    · rw [h]
    · exact (List.Perm.swap x q.1 q.2).trans ((ih q hq).cons x)

theorem pickTwo_perm {α : Type} (l : List α) (p : α × α × List α)
    (hp : p ∈ pickTwo l) : (p.1 :: p.2.1 :: p.2.2).Perm l := by
  simp only [pickTwo, List.mem_flatten, List.mem_map] at hp
  obtain ⟨inner, ⟨q, hq, rfl⟩, hmem⟩ := hp
  simp only [List.mem_map] at hmem
  obtain ⟨q2, hq2, rfl⟩ := hmem
  have h2 : (q2.1 :: q2.2).Perm q.2 := pickOne_perm q.2 q2 hq2
  have h1 : (q.1 :: q.2).Perm l := pickOne_perm l q hq
  exact ((h2.cons q.1).trans h1)

theorem argminBy_mem {α : Type} (f : α → ℚ) :
    ∀ (l : List α) (a : α), argminBy f l = some a → a ∈ l := by
  intro l
  induction l with
  | nil => intro a ha; simp [argminBy] at ha
  | cons x xs ih =>
    intro a ha
    simp only [argminBy] at ha
    cases h : argminBy f xs with
    | none =>
      simp only [h] at ha
      cases ha
      exact List.mem_cons_self x xs
    | some y =>
      simp only [h] at ha
      by_cases hle : f x ≤ f y
      · rw [if_pos hle] at ha
        cases ha
        exact List.mem_cons_self x xs
      · rw [if_neg hle] at ha
        cases ha
        exact List.mem_cons_of_mem x (ih a h)

theorem flatten_perm {α : Type} {l1 l2 : List (List α)} (h : l1.Perm l2) :
    l1.flatten.Perm l2.flatten := by
  induction h with
  | nil => exact List.Perm.refl _
  | cons x h ih =>
    simp only [List.flatten_cons]
    exact ih.append_left x
  | swap x y l =>
    simp only [List.flatten_cons, ← List.append_assoc]
    exact List.perm_append_comm.append_right l.flatten
  | trans h1 h2 ih1 ih2 => exact ih1.trans ih2

theorem leavesOf_perm {cs1 cs2 : List WardCluster} (h : cs1.Perm cs2) :
    (leavesOf cs1).Perm (leavesOf cs2) :=
  flatten_perm (h.map WardCluster.leaves)

theorem wardStep_leaves (cs : List WardCluster) :
    (leavesOf (wardStep cs)).Perm (leavesOf cs) := by
  unfold wardStep
  cases h : argminBy (fun p => wardDist p.1 p.2.1) (pickTwo cs) with
  | none => exact List.Perm.refl _
  | some p =>
    have hp : p ∈ pickTwo cs := argminBy_mem _ _ _ h
    have hperm : (p.1 :: p.2.1 :: p.2.2).Perm cs := pickTwo_perm cs p hp
    have h1 : leavesOf (mergeClusters p.1 p.2.1 :: p.2.2)
        = leavesOf (p.1 :: p.2.1 :: p.2.2) := by
      simp [leavesOf, mergeClusters, List.flatten_cons, List.append_assoc]
    rw [h1]
    exact leavesOf_perm hperm

theorem wardLoop_leaves (n : ℕ) (cs : List WardCluster) :
    (leavesOf (wardLoop n cs)).Perm (leavesOf cs) := by
  induction n generalizing cs with
  | zero => exact List.Perm.refl _
  | succ n ih =>
    simp only [wardLoop]
    split
    · exact List.Perm.refl _
    · exact (ih (wardStep cs)).trans (wardStep_leaves cs)

theorem flatten_map_single (l : List ℕ) : (l.map (fun i => [i])).flatten = l := by
  induction l with
  | nil => rfl
  | cons x xs ih => simp [List.flatten_cons, ih]

theorem leavesOf_init (mat : List (List ℚ)) :
    leavesOf (initClusters mat) = List.range mat.length := by
  simp only [leavesOf, initClusters, List.map_map]
  exact flatten_map_single (List.range mat.length)

theorem leafOrder_perm (mat : List (List ℚ)) :
    (leafOrder mat).Perm (List.range mat.length) := by
  unfold leafOrder
  exact (wardLoop_leaves mat.length (initClusters mat)).trans
    (by rw [leavesOf_init])

theorem length_transposed (mat : List (List ℚ)) :
    (transposed mat).length = numCols mat := by
  simp [transposed]

/-- C4: for a matrix with at least 2 rows and at least 2 columns, the
hierarchical reordering returns a row permutation and a column permutation
that are bijections on the row and column index ranges (stated as
permutations of `List.range`); on an axis with fewer than 2 entries the
returned permutation is the identity range and no clustering is invoked. -/
theorem reorder_bijection (mat : List (List ℚ)) (hr : 2 ≤ mat.length)
    (hc : 2 ≤ numCols mat) :
    ((reorderRowPerm mat).Perm (List.range mat.length)
      ∧ (reorderColPerm mat).Perm (List.range (numCols mat)))
  ∧ (∀ m2 : List (List ℚ), m2.length < 2 →
      reorderRowPerm m2 = List.range m2.length)
  ∧ (∀ m2 : List (List ℚ), numCols m2 < 2 →
      reorderColPerm m2 = List.range (numCols m2)) := by
  refine ⟨⟨?_, ?_⟩, ?_, ?_⟩
  · rw [reorderRowPerm, if_neg (by omega)]
    exact leafOrder_perm mat
  · rw [reorderColPerm, if_neg (by rw [length_transposed]; omega)]
    exact (leafOrder_perm (transposed mat)).trans (by rw [length_transposed])
  · intro m2 h2
    rw [reorderRowPerm, if_pos h2]
  · intro m2 h2
    rw [reorderColPerm, if_pos (by rw [length_transposed]; exact h2),
      length_transposed]

/-- Witness for C4 at a concrete 2×2 matrix. -/
theorem reorder_bijection_witness :
    (2 ≤ ([[0, 0], [1, 1]] : List (List ℚ)).length)
    ∧ (2 ≤ numCols ([[0, 0], [1, 1]] : List (List ℚ)))
    ∧ (((reorderRowPerm [[0, 0], [1, 1]]).Perm
          (List.range ([[0, 0], [1, 1]] : List (List ℚ)).length)
        ∧ (reorderColPerm [[0, 0], [1, 1]]).Perm
          (List.range (numCols ([[0, 0], [1, 1]] : List (List ℚ)))))
      ∧ (∀ m2 : List (List ℚ), m2.length < 2 →
          reorderRowPerm m2 = List.range m2.length)
      ∧ (∀ m2 : List (List ℚ), numCols m2 < 2 →
          reorderColPerm m2 = List.range (numCols m2))) :=
  ⟨by decide, by decide, reorder_bijection [[0, 0], [1, 1]] (by decide) (by decide)⟩

/-- C8 counterexample: on the sum path the pivot of the empty filtered table
is the full canonical 15-row by 6-column grid (empty groups sum to 0 and so
survive `dropna`), not a matrix with 0 rows or 0 columns as the claim states
for the aggregation/pivot step in general. -/
theorem pivot_empty_counterexample :
    ¬ ((pivot_df ([] : List Record) .sum 0).cells.length = 0
        ∨ (pivot_df ([] : List Record) .sum 0).colLabels.length = 0) := by
  decide

/-- C8 (amended): the empty filtered table never makes the pivot raise: with
mean aggregation (the averaged default data source) every aggregated row is
NaN and is dropped, so the result is the empty matrix with 0 rows and 0
columns; with sum aggregation empty groups aggregate to 0, so the result is
the full canonical 15-row by 6-column grid of zeros (the configured fill
value); and reordering applied to a matrix with fewer than 2 rows (resp.
columns) short-circuits to the identity permutation on that axis rather than
raising. -/
theorem pivot_empty_amended :
    (pivot_df [] .mean (0 : ℚ)).rowLabels = []
  ∧ (pivot_df [] .mean (0 : ℚ)).colLabels = []
  ∧ (pivot_df [] .mean (0 : ℚ)).cells = []
  ∧ (pivot_df [] .sum (0 : ℚ)).rowLabels = canonicalRowKeys
  ∧ (pivot_df [] .sum (0 : ℚ)).colLabels = CLUSTER_ORDER
  ∧ (pivot_df [] .sum (0 : ℚ)).cells = List.replicate 15 (List.replicate 6 (0 : ℚ))
  ∧ (∀ mat : List (List ℚ), mat.length < 2 →
      reorderRowPerm mat = List.range mat.length)
  ∧ (∀ mat : List (List ℚ), numCols mat < 2 →
      reorderColPerm mat = List.range (numCols mat)) := by
  refine ⟨by decide, by decide, by decide, by decide, by decide, by decide, ?_, ?_⟩
  · intro mat h2
    rw [reorderRowPerm, if_pos h2]
  · intro mat h2
    rw [reorderColPerm, if_pos (by rw [length_transposed]; exact h2),
      length_transposed]

/-- Witness for C8 (amended) at a concrete single-row matrix. -/
theorem pivot_empty_amended_witness :
    (([[1, 2]] : List (List ℚ)).length < 2)
    ∧ reorderRowPerm ([[1, 2]] : List (List ℚ))
        = List.range ([[1, 2]] : List (List ℚ)).length :=
  ⟨by decide, pivot_empty_amended.2.2.2.2.2.2.1 [[1, 2]] (by decide)⟩

/-- C9: one full run of the heatmap pipeline (filter, categorical
reassignment on the filtered copy, pivot) leaves the loaded source table of
the final state exactly equal to the input table — every record and every
field unchanged; only the derived `filtered` and `pivot` components hold new
data. -/
theorem pipeline_preserves_source (df : List Record) (s : Selection)
    (m : AggMethod) (fill : ℚ) :
    (runHeatmapPage df s m fill).df = df := rfl

/-- C10: assigning the column labels as the index of the performance table
succeeds exactly when the table is square (as many rows as columns), and in
that case the resulting row labels equal the column labels in the same
order; on any non-square table the assignment fails. -/
theorem perf_index_assignment (t : PerfTable) :
    ((setIndexToColumns t).isSome ↔ t.rows.length = t.columns.length)
  ∧ (∀ t2 : PerfTable, setIndexToColumns t = some t2 →
      t2.index = t2.columns ∧ t2.columns = t.columns ∧ t2.rows = t.rows) := by
  constructor
  · unfold setIndexToColumns
    split
    · simpa
    · simpa
  · intro t2 h2
    unfold setIndexToColumns at h2
    split at h2
    · cases h2
      exact ⟨rfl, rfl, rfl⟩
    · cases h2

/-- Witness for C10: a concrete 1×1 table, where the assignment succeeds and
rewrites the index to the column labels. -/
theorem perf_index_assignment_witness :
    (setIndexToColumns { columns := ["m1"], index := ["0"], rows := [[1]] }
        = some { columns := ["m1"], index := ["m1"], rows := [[1]] })
    ∧ (({ columns := ["m1"], index := ["m1"], rows := [[1]] } : PerfTable).index
          = ({ columns := ["m1"], index := ["m1"], rows := [[1]] } : PerfTable).columns
        ∧ ({ columns := ["m1"], index := ["m1"], rows := [[1]] } : PerfTable).columns
          = ({ columns := ["m1"], index := ["0"], rows := [[1]] } : PerfTable).columns
        ∧ ({ columns := ["m1"], index := ["m1"], rows := [[1]] } : PerfTable).rows
          = ({ columns := ["m1"], index := ["0"], rows := [[1]] } : PerfTable).rows) :=
  ⟨rfl, (perf_index_assignment _).2 _ rfl⟩
